import Mathlib

/-!
# Verification of the listener_web rolling audio buffer and WAV encoder

Shallow embedding of the core audio functions of `src/unnamed/part_002`
(the recording page component):

* `trimAudioBuffer` (source lines 16-37): keeps the last N samples of a
  list of captured chunks.
* `createWavBlob` (source lines 40-75): byte-for-byte model of the WAV
  encoder, including the `DataView` writes at explicit offsets.
* the `onaudioprocess` callback eviction loop (source lines 158-175),
  modelled as `appendChunk` / `evictOld`.
* the snapshot computation inside `transcribeAudio` (source lines
  287-296), modelled as `snapshotLast`.

Audio samples are JavaScript numbers (IEEE doubles holding float32
values); they are modelled here as rationals `ℚ`, which is exact for all
the arithmetic the claims exercise (clamping, scaling by 32767/32768,
truncation).  Byte buffers are `List Nat` with every entry reduced
mod 256 at write time, mirroring `DataView` stores.  A negative length
passed to a typed-array constructor throws a `RangeError` in JavaScript;
this is the one failure path of the core and is modelled with `Option`.
-/

namespace Listener

/-- Total number of retained samples, `audioBuffers.reduce((sum, buf) => sum + buf.length, 0)`
(source lines 17, 169, 288). -/
def totalSamples (audioBuffers : List (List ℚ)) : Nat :=
  (audioBuffers.map List.length).sum

/-- One iteration of the copy loop of `trimAudioBuffer` (source lines 26-34):
the state is the output built so far (its length is `outputIndex`) together
with `currentSample`; a sample is copied when `currentSample >= startSample`
and the output is not yet full. -/
def trimStep (startSample outLen : Nat) (st : List ℚ × Nat) (x : ℚ) : List ℚ × Nat :=
  (if startSample ≤ st.2 ∧ st.1.length < outLen then st.1 ++ [x] else st.1, st.2 + 1)

/-- `trimAudioBuffer(audioBuffers, samplesToKeep)` (source lines 16-37).
`startSample = Math.max(0, totalSamples - samplesToKeep)`; the output array
is allocated with length `Math.min(samplesToKeep, totalSamples)` (a negative
length makes the `Float32Array` constructor throw a `RangeError`, modelled
by `none`); positions not filled by the loop keep the zero fill of the
fresh typed array. -/
def trimAudioBuffer (audioBuffers : List (List ℚ)) (samplesToKeep : Int) : Option (List ℚ) :=
  let total : Int := (totalSamples audioBuffers : Int)
  let startSample : Int := max 0 (total - samplesToKeep)
  let outLen : Int := min samplesToKeep total
  if outLen < 0 then none
  else
    let filled :=
      (audioBuffers.foldl
        (fun st buf => buf.foldl (trimStep startSample.toNat outLen.toNat) st) ([], 0)).1
    some (filled ++ List.replicate (outLen.toNat - filled.length) 0)

/-- `view.setUint8(off, v)`: one byte store, value wraps mod 256. -/
def writeByte (buf : List Nat) (off v : Nat) : List Nat :=
  buf.set off (v % 256)

/-- The `writeString` helper of `createWavBlob` (source lines 46-50),
applied to a list of character codes. -/
def writeBytes (buf : List Nat) (off : Nat) : List Nat → List Nat
  | [] => buf
  | c :: cs => writeBytes (writeByte buf off c) (off + 1) cs

/-- `writeString(offset, string)` (source lines 46-50): stores
`string.charCodeAt(i)` at `offset + i`. -/
def writeStr (buf : List Nat) (off : Nat) (s : String) : List Nat :=
  writeBytes buf off (s.data.map Char.toNat)

/-- `view.setUint16(off, v, true)`: two little-endian byte stores. -/
def writeUint16 (buf : List Nat) (off v : Nat) : List Nat :=
  writeByte (writeByte buf off v) (off + 1) (v / 256)

/-- `view.setUint32(off, v, true)`: four little-endian byte stores. -/
def writeUint32 (buf : List Nat) (off v : Nat) : List Nat :=
  writeUint16 (writeUint16 buf off v) (off + 2) (v / 256 / 256)

/-- Truncation toward zero, the integer conversion JavaScript applies to
the number handed to `view.setInt16`. -/
def ratTrunc (q : ℚ) : Int :=
  if q < 0 then ⌈q⌉ else ⌊q⌋

/-- `view.setInt16(off, v, true)`: truncate toward zero, wrap into 16 bits,
store little-endian. -/
def writeInt16 (buf : List Nat) (off : Nat) (v : ℚ) : List Nat :=
  writeUint16 buf off ((ratTrunc v % 65536).toNat)

/-- The scaled sample value of source lines 69-70:
`sample = Math.max(-1, Math.min(1, audioData[i]))`, then
`sample < 0 ? sample * 0x8000 : sample * 0x7FFF`. -/
def pcmScale (x : ℚ) : ℚ :=
  let sample := max (-1) (min 1 x)
  if sample < 0 then sample * 0x8000 else sample * 0x7FFF

/-- The sample loop of `createWavBlob` (source lines 67-72): successive
`setInt16` stores at offsets 44, 46, 48, ... -/
def writeSamples (buf : List Nat) (off : Nat) : List ℚ → List Nat
  | [] => buf
  | x :: xs => writeSamples (writeInt16 buf off (pcmScale x)) (off + 2) xs

/-- `createWavBlob(audioData, sampleRate)` (source lines 40-75): allocate a
zero-filled buffer of `44 + length * 2` bytes, write the header fields at
their explicit offsets, then write the quantized samples from offset 44. -/
def createWavBlob (audioData : List ℚ) (sampleRate : Nat) : List Nat :=
  let length := audioData.length
  let buffer := List.replicate (44 + length * 2) 0
  let b1 := writeStr buffer 0 "RIFF"
  let b2 := writeUint32 b1 4 (36 + length * 2)
  let b3 := writeStr b2 8 "WAVE"
  let b4 := writeStr b3 12 "fmt "
  let b5 := writeUint32 b4 16 16
  let b6 := writeUint16 b5 20 1
  let b7 := writeUint16 b6 22 1
  let b8 := writeUint32 b7 24 sampleRate
  let b9 := writeUint32 b8 28 (sampleRate * 2)
  let b10 := writeUint16 b9 32 2
  let b11 := writeUint16 b10 34 16
  let b12 := writeStr b11 36 "data"
  let b13 := writeUint32 b12 40 (length * 2)
  writeSamples b13 44 audioData

/-- The eviction loop of `onaudioprocess` (source lines 171-174):
`while (totalSamples > maxSamples && audioBufferRef.current.length > 1)`
drop the oldest chunk. -/
def evictOld (maxSamples : Nat) : List (List ℚ) → List (List ℚ)
  | [] => []
  | buf :: rest =>
    if totalSamples (buf :: rest) > maxSamples ∧ (buf :: rest).length > 1 then
      evictOld maxSamples rest
    else buf :: rest

/-- One `onaudioprocess` callback (source lines 158-175): push a copy of
the incoming chunk, then run the eviction loop.  In the application
`maxSamples = sampleRate.current * bufferLimitSeconds` with
`bufferLimitSeconds = 30`; it is kept as a parameter here so that other
retention windows can be stated. -/
def appendChunk (maxSamples : Nat) (audioBuffers : List (List ℚ)) (chunk : List ℚ) :
    List (List ℚ) :=
  evictOld maxSamples (audioBuffers ++ [chunk])

/-- A capture session: fold `appendChunk` over the stream of chunks,
starting from the empty buffer set up at `start` (source line 156). -/
def runAppends (maxSamples : Nat) (chunks : List (List ℚ)) : List (List ℚ) :=
  chunks.foldl (appendChunk maxSamples) []

/-- The snapshot computation of `transcribeAudio` (source lines 287-296):
`totalAvailableDuration = totalSamples / sampleRate`,
`requestedDuration = Math.min(transcribeDurationSeconds, totalAvailableDuration)`,
`samplesToKeep = Math.floor(requestedDuration * sampleRate)`,
then `trimAudioBuffer(audioBuffer, samplesToKeep)`. -/
def snapshotLast (audioBuffer : List (List ℚ)) (sampleRate : Nat)
    (transcribeDurationSeconds : ℚ) : Option (List ℚ) :=
  let total := totalSamples audioBuffer
  let totalAvailableDuration : ℚ := (total : ℚ) / (sampleRate : ℚ)
  let requestedDuration := min transcribeDurationSeconds totalAvailableDuration
  let samplesToKeep : Int := ⌊requestedDuration * (sampleRate : ℚ)⌋
  trimAudioBuffer audioBuffer samplesToKeep

/-! ## Specification-side definitions (from the claim texts) -/

/-- Two little-endian bytes of an unsigned 16-bit value. -/
def u16le (v : Nat) : List Nat :=
  [v % 256, v / 256 % 256]

/-- Four little-endian bytes of an unsigned 32-bit value. -/
def u32le (v : Nat) : List Nat :=
  [v % 256, v / 256 % 256, v / 65536 % 256, v / 16777216 % 256]

/-- Little-endian bytes of a signed 16-bit value (wrapped into 16 bits). -/
def i16le (v : Int) : List Nat :=
  u16le ((v % 65536).toNat)

/-- The quantization rule as the specification words it: clamp to
`[-1, 1]`, multiply a negative value by 32768 and a non-negative one by
32767, truncate. -/
def specQuantize (x : ℚ) : Int :=
  let clamped := max (-1) (min 1 x)
  if clamped < 0 then ratTrunc (clamped * 32768) else ratTrunc (clamped * 32767)

/-- The 44-byte header layout as the specification words it. -/
def wavHeader (sampleCount sampleRate : Nat) : List Nat :=
  [82, 73, 70, 70] ++ u32le (36 + sampleCount * 2) ++ [87, 65, 86, 69] ++
    [102, 109, 116, 32] ++ u32le 16 ++ u16le 1 ++ u16le 1 ++
    u32le sampleRate ++ u32le (sampleRate * 2) ++ u16le 2 ++ u16le 16 ++
    [100, 97, 116, 97] ++ u32le (sampleCount * 2)

/-- The payload the specification describes: one little-endian signed
16-bit word per sample. -/
def wavPayload (audioData : List ℚ) : List Nat :=
  (audioData.map fun x => i16le (specQuantize x)).flatten

/-- Reassemble a signed 16-bit value from its two little-endian bytes. -/
def decodeInt16 (lo hi : Nat) : Int :=
  let u := lo + 256 * hi
  if u < 32768 then (u : Int) else (u : Int) - 65536

/-- The inverse of the documented quantization formula: divide a negative
word by 32768 and a non-negative one by 32767. -/
def dequantize (v : Int) : ℚ :=
  if v < 0 then (v : ℚ) / 32768 else (v : ℚ) / 32767

/-- The three chunks of the concrete scenario of the spec: 16000, 16000
and 8000 samples, every sample equal to 0.5, at sample rate 16000. -/
def c1Chunks : List (List ℚ) :=
  [List.replicate 16000 (1/2), List.replicate 16000 (1/2), List.replicate 8000 (1/2)]

/-- The buffer state of the concrete scenario after the three appends with
a 2-second retention window at 16000 Hz (`maxSamples = 16000 * 2`). -/
def c1Buffers : List (List ℚ) :=
  runAppends (16000 * 2) c1Chunks

/-! ## Helper lemmas -/

theorem totalSamples_nil : totalSamples [] = 0 := rfl

theorem totalSamples_cons (c : List ℚ) (bufs : List (List ℚ)) :
    totalSamples (c :: bufs) = c.length + totalSamples bufs := by
  simp [totalSamples]

theorem totalSamples_append (xs ys : List (List ℚ)) :
    totalSamples (xs ++ ys) = totalSamples xs + totalSamples ys := by
  simp [totalSamples]

theorem totalSamples_eq_length_flatten (bufs : List (List ℚ)) :
    totalSamples bufs = bufs.flatten.length := by
  simp [totalSamples, List.length_flatten]

theorem trimStep_foldl (start outLen : Nat) (l : List ℚ) :
    ∀ (acc : List ℚ) (c : Nat),
      List.foldl (trimStep start outLen) (acc, c) l
        = (acc ++ List.take (outLen - acc.length) (List.drop (start - c) l), c + l.length) := by
  induction l with
  | nil => intro acc c; simp
  | cons x xs ih =>
    intro acc c
    rw [List.foldl_cons]
    by_cases h1 : start ≤ c
    · have hs : start - c = 0 := Nat.sub_eq_zero_of_le h1
      have hs1 : start - (c + 1) = 0 := by omega
      by_cases h2 : acc.length < outLen
      · have hstep : trimStep start outLen (acc, c) x = (acc ++ [x], c + 1) := by
          simp [trimStep, h1, h2]
        rw [hstep, ih]
        have houtLen : outLen - acc.length = (outLen - (acc ++ [x]).length) + 1 := by
          simp; omega
        rw [hs, hs1, houtLen]
        simp [List.append_assoc]
        omega
      · have hstep : trimStep start outLen (acc, c) x = (acc, c + 1) := by
          simp [trimStep, h2]
        rw [hstep, ih]
        have houtLen : outLen - acc.length = 0 := by omega
        rw [hs, hs1, houtLen]
        simp
        omega
    · have hs : start - c = (start - (c + 1)) + 1 := by omega
      have hstep : trimStep start outLen (acc, c) x = (acc, c + 1) := by
        simp [trimStep, h1]
      rw [hstep, ih, hs]
      simp
      omega

theorem trimAudioBuffer_eq (bufs : List (List ℚ)) (keep : Int) (h : 0 ≤ keep) :
    trimAudioBuffer bufs keep
      = some (bufs.flatten.drop (totalSamples bufs - keep.toNat)) := by
  have hflat := totalSamples_eq_length_flatten bufs
  rw [trimAudioBuffer]
  have hmin : ¬ (min keep ((totalSamples bufs : Nat) : Int) < 0) := by omega
  rw [if_neg hmin]
  have hfold :
      (bufs.foldl
          (fun st buf =>
            buf.foldl
              (trimStep (max 0 ((totalSamples bufs : Int) - keep)).toNat
                (min keep ((totalSamples bufs : Nat) : Int)).toNat) st) ([], 0))
        = (List.foldl
            (trimStep (max 0 ((totalSamples bufs : Int) - keep)).toNat
              (min keep ((totalSamples bufs : Nat) : Int)).toNat) ([], 0) bufs.flatten) := by
    rw [List.foldl_flatten]
  rw [hfold, trimStep_foldl]
  have hstart : (max 0 ((totalSamples bufs : Int) - keep)).toNat
      = totalSamples bufs - keep.toNat := by omega
  have houtLen : (min keep ((totalSamples bufs : Nat) : Int)).toNat
      = min keep.toNat (totalSamples bufs) := by omega
  have hdroplen :
      (List.drop (totalSamples bufs - keep.toNat) bufs.flatten).length
        = min keep.toNat (totalSamples bufs) := by
    rw [List.length_drop, ← hflat]
    omega
  rw [hstart, houtLen]
  simp only [List.nil_append, List.length_nil, Nat.sub_zero]
  rw [List.take_of_length_le (by omega), hdroplen]
  simp

theorem trimAudioBuffer_neg (bufs : List (List ℚ)) (keep : Int) (h : keep < 0) :
    trimAudioBuffer bufs keep = none := by
  rw [trimAudioBuffer]
  rw [if_pos (by omega)]

theorem evictOld_ne_nil (m : Nat) :
    ∀ bufs : List (List ℚ), bufs ≠ [] → evictOld m bufs ≠ [] := by
  intro bufs
  induction bufs with
  | nil => simp
  | cons b rest ih =>
    intro _
    rw [evictOld]
    split
    · next hcond =>
      have hrest : rest ≠ [] := by
        rcases rest with _ | ⟨c, cs⟩
        · simp at hcond
        · simp
      exact ih hrest
    · simp

theorem evictOld_suffix (m : Nat) :
    ∀ bufs : List (List ℚ), evictOld m bufs <:+ bufs := by
  intro bufs
  induction bufs with
  | nil => simp [evictOld]
  | cons b rest ih =>
    rw [evictOld]
    split
    · exact ih.trans (List.suffix_cons b rest)
    · exact List.suffix_refl _

theorem evictOld_total_le (m : Nat) :
    ∀ bufs : List (List ℚ), (∀ c ∈ bufs, c.length ≤ m) →
      totalSamples (evictOld m bufs) ≤ m := by
  intro bufs
  induction bufs with
  | nil => intro _; simp [evictOld, totalSamples]
  | cons b rest ih =>
    intro hall
    rw [evictOld]
    split
    · exact ih (fun c hc => hall c (List.mem_cons_of_mem b hc))
    · next hcond =>
      rcases rest with _ | ⟨c, cs⟩
      · have hb := hall b (by simp)
        simp [totalSamples]
        omega
      · have hlen : (b :: c :: cs).length > 1 := by simp
        have hle : ¬ totalSamples (b :: c :: cs) > m := fun hgt => hcond ⟨hgt, hlen⟩
        omega

theorem evictOld_eq_self (m : Nat) (bufs : List (List ℚ)) (h : totalSamples bufs ≤ m) :
    evictOld m bufs = bufs := by
  cases bufs with
  | nil => simp [evictOld]
  | cons b rest =>
    rw [evictOld, if_neg]
    rintro ⟨h1, _⟩
    omega

theorem evictOld_big (m : Nat) (c : List ℚ) (hc : m < c.length) :
    ∀ L : List (List ℚ), evictOld m (L ++ [c]) = [c] := by
  intro L
  induction L with
  | nil =>
    rw [List.nil_append, evictOld, if_neg]
    rintro ⟨_, hlen⟩
    simp at hlen
  | cons b L ih =>
    rw [List.cons_append, evictOld, if_pos, ih]
    refine ⟨?_, by simp⟩
    have : totalSamples (b :: (L ++ [c])) = b.length + (totalSamples L + c.length) := by
      rw [totalSamples_cons, totalSamples_append]
      simp [totalSamples]
    omega

theorem appendChunk_ne_nil (m : Nat) (bufs : List (List ℚ)) (c : List ℚ) :
    appendChunk m bufs c ≠ [] := by
  apply evictOld_ne_nil
  simp

theorem foldl_appendChunk_mem (m : Nat) :
    ∀ (chunks s : List (List ℚ)),
      ∀ b ∈ List.foldl (appendChunk m) s chunks, b ∈ s ∨ b ∈ chunks := by
  intro chunks
  induction chunks with
  | nil => intro s b hb; exact Or.inl hb
  | cons ch chs ih =>
    intro s b hb
    rcases ih (appendChunk m s ch) b hb with h | h
    · have hsub : appendChunk m s ch <:+ s ++ [ch] := evictOld_suffix m _
      rcases List.mem_append.mp (hsub.subset h) with h' | h'
      · exact Or.inl h'
      · simp at h'
        subst h'
        exact Or.inr (by simp)
    · exact Or.inr (List.mem_cons_of_mem _ h)

theorem runAppends_total_le (m : Nat) (chunks : List (List ℚ))
    (h : ∀ c ∈ chunks, c.length ≤ m) :
    totalSamples (runAppends m chunks) ≤ m := by
  rcases List.eq_nil_or_concat chunks with rfl | ⟨L, a, rfl⟩
  · simp [runAppends, totalSamples]
  · rw [List.concat_eq_append] at h ⊢
    rw [runAppends, List.foldl_append]
    simp only [List.foldl_cons, List.foldl_nil]
    apply evictOld_total_le
    intro c hc
    rcases List.mem_append.mp hc with h' | h'
    · rcases foldl_appendChunk_mem m L [] c h' with h'' | h''
      · simp at h''
      · exact h c (List.mem_append_left _ h'')
    · simp at h'
      subst h'
      exact h c (by simp)

theorem suffix_flatten {s t : List (List ℚ)} (h : s <:+ t) :
    s.flatten <:+ t.flatten := by
  rcases h with ⟨p, rfl⟩
  exact ⟨p.flatten, by simp⟩

theorem foldl_appendChunk_flatten_suffix (m : Nat) :
    ∀ (chunks s : List (List ℚ)),
      (List.foldl (appendChunk m) s chunks).flatten <:+ s.flatten ++ chunks.flatten := by
  intro chunks
  induction chunks with
  | nil => intro s; simp
  | cons ch chs ih =>
    intro s
    have h1 := ih (appendChunk m s ch)
    have h2 : (appendChunk m s ch).flatten <:+ s.flatten ++ ch := by
      have := suffix_flatten (evictOld_suffix m (s ++ [ch]))
      simpa using this
    have h3 : (appendChunk m s ch).flatten ++ chs.flatten
        <:+ (s.flatten ++ ch) ++ chs.flatten := by
      rcases h2 with ⟨p, hp⟩
      exact ⟨p, by rw [← List.append_assoc, hp]⟩
    rw [List.foldl_cons]
    have h4 := h1.trans h3
    simpa [List.append_assoc] using h4

theorem runAppends_total_le_appended (m : Nat) (chunks : List (List ℚ)) :
    totalSamples (runAppends m chunks) ≤ totalSamples chunks := by
  have h := foldl_appendChunk_flatten_suffix m chunks []
  rw [runAppends] at *
  have := h.length_le
  simp only [List.flatten_nil, List.nil_append] at this
  rw [totalSamples_eq_length_flatten, totalSamples_eq_length_flatten]
  exact this

theorem foldl_appendChunk_no_evict (m : Nat) :
    ∀ (chunks s : List (List ℚ)), totalSamples (s ++ chunks) ≤ m →
      List.foldl (appendChunk m) s chunks = s ++ chunks := by
  intro chunks
  induction chunks with
  | nil => intro s _; simp
  | cons ch chs ih =>
    intro s h
    rw [totalSamples_append, totalSamples_cons] at h
    have h1 : totalSamples (s ++ [ch]) ≤ m := by
      rw [totalSamples_append, totalSamples_cons, totalSamples_nil]
      omega
    rw [List.foldl_cons]
    have hstep : appendChunk m s ch = s ++ [ch] := evictOld_eq_self m _ h1
    rw [hstep, ih]
    · simp
    · rw [totalSamples_append, totalSamples_append, totalSamples_cons, totalSamples_nil]
      omega

theorem runAppends_no_evict (m : Nat) (chunks : List (List ℚ))
    (h : totalSamples chunks ≤ m) :
    runAppends m chunks = chunks := by
  have := foldl_appendChunk_no_evict m chunks [] (by simpa [totalSamples] using h)
  simpa [runAppends] using this

theorem snapshotLast_saturate (bufs : List (List ℚ)) (rate : Nat) (d : ℚ)
    (hrate : 0 < rate) (hd : (totalSamples bufs : ℚ) / (rate : ℚ) ≤ d) :
    snapshotLast bufs rate d = some bufs.flatten := by
  have hr0 : ((rate : ℚ)) ≠ 0 := by positivity
  simp only [snapshotLast]
  rw [min_eq_right hd, div_mul_cancel₀ _ hr0, Int.floor_natCast,
    trimAudioBuffer_eq _ _ (by positivity)]
  simp

theorem snapshotLast_small (bufs : List (List ℚ)) (rate : Nat) (d : ℚ)
    (hrate : 0 < rate) (hd0 : 0 ≤ d) (hdle : d * (rate : ℚ) ≤ (totalSamples bufs : ℚ)) :
    snapshotLast bufs rate d
      = some (bufs.flatten.drop (totalSamples bufs - (⌊d * (rate : ℚ)⌋).toNat)) := by
  have hr0 : (0:ℚ) < (rate : ℚ) := by exact_mod_cast hrate
  have hdav : d ≤ (totalSamples bufs : ℚ) / (rate : ℚ) := by
    rw [le_div_iff₀ hr0]
    exact hdle
  simp only [snapshotLast]
  rw [min_eq_left hdav,
    trimAudioBuffer_eq _ _ (Int.floor_nonneg.mpr (mul_nonneg hd0 hr0.le))]

theorem floor_round_close (q : ℚ) : (⌊q⌋ - round q).natAbs ≤ 1 := by
  have h1 : ⌊q⌋ ≤ round q := by
    rw [round_eq]
    exact Int.floor_le_floor (by linarith)
  have h2 : round q ≤ ⌊q⌋ + 1 := by
    rw [round_eq]
    have := Int.floor_le_floor (show q + 1/2 ≤ q + 1 by linarith)
    rwa [Int.floor_add_one] at this
  omega

theorem set_append_len : ∀ (pre t : List Nat) (k v : Nat),
    (pre ++ t).set (pre.length + k) v = pre ++ t.set k v := by
  intro pre
  induction pre with
  | nil => intro t k v; simp
  | cons a l ih =>
    intro t k v
    have harith : (a :: l).length + k = (l.length + k) + 1 := by
      simp
      omega
    rw [List.cons_append, harith, List.set_cons_succ, ih, List.cons_append]

theorem writeByte_append (pre t : List Nat) (k v : Nat) :
    writeByte (pre ++ t) (pre.length + k) v = pre ++ writeByte t k v := by
  simp [writeByte, set_append_len]

theorem writeBytes_fill :
    ∀ (cs pre : List Nat) (r off : Nat), off = pre.length → (∀ c ∈ cs, c % 256 = c) →
      writeBytes (pre ++ List.replicate (cs.length + r) 0) off cs
        = (pre ++ cs) ++ List.replicate r 0 := by
  intro cs
  induction cs with
  | nil => intro pre r off h _; simp [writeBytes]
  | cons c cs ih =>
    intro pre r off h hlt
    rw [writeBytes]
    have hrep : List.replicate ((c :: cs).length + r) (0:Nat)
        = 0 :: List.replicate (cs.length + r) 0 := by
      rw [show (c :: cs).length + r = (cs.length + r) + 1 by simp; omega,
        List.replicate_succ]
    rw [hrep, h]
    have hw : writeByte (pre ++ 0 :: List.replicate (cs.length + r) 0) pre.length c
        = (pre ++ [c % 256]) ++ List.replicate (cs.length + r) 0 := by
      have := writeByte_append pre (0 :: List.replicate (cs.length + r) 0) 0 c
      simp only [Nat.add_zero] at this
      rw [this, writeByte, List.set_cons_zero]
      simp
    rw [hw]
    have hc : c % 256 = c := hlt c (by simp)
    rw [hc]
    have := ih (pre ++ [c]) r (pre.length + 1) (by simp) (fun x hx => hlt x (by simp [hx]))
    rw [this]
    simp

theorem writeUint16_fill (pre : List Nat) (r off v : Nat) (h : off = pre.length) :
    writeUint16 (pre ++ List.replicate (2 + r) 0) off v
      = (pre ++ u16le v) ++ List.replicate r 0 := by
  rw [writeUint16, h]
  have hrep : List.replicate (2 + r) (0:Nat) = 0 :: 0 :: List.replicate r 0 := by
    rw [show 2 + r = (r + 1) + 1 by omega, List.replicate_succ, List.replicate_succ]
  rw [hrep]
  have h1 : writeByte (pre ++ 0 :: 0 :: List.replicate r 0) pre.length v
      = (pre ++ [v % 256]) ++ 0 :: List.replicate r 0 := by
    have := writeByte_append pre (0 :: 0 :: List.replicate r 0) 0 v
    simp only [Nat.add_zero] at this
    rw [this, writeByte, List.set_cons_zero]
    simp
  rw [h1]
  have h2 : writeByte ((pre ++ [v % 256]) ++ 0 :: List.replicate r 0)
        (pre.length + 1) (v / 256)
      = ((pre ++ [v % 256]) ++ [v / 256 % 256]) ++ List.replicate r 0 := by
    have hlen : pre.length + 1 = (pre ++ [v % 256]).length + 0 := by simp
    rw [hlen, writeByte_append, writeByte, List.set_cons_zero]
    simp
  rw [h2]
  simp [u16le]

theorem u32le_eq_u16le (v : Nat) : u32le v = u16le v ++ u16le (v / 256 / 256) := by
  simp [u32le, u16le, Nat.div_div_eq_div_mul]

theorem writeUint32_fill (pre : List Nat) (r off v : Nat) (h : off = pre.length) :
    writeUint32 (pre ++ List.replicate (4 + r) 0) off v
      = (pre ++ u32le v) ++ List.replicate r 0 := by
  rw [writeUint32]
  have hrep : List.replicate (4 + r) (0:Nat) = List.replicate (2 + (2 + r)) 0 := by
    rw [show 4 + r = 2 + (2 + r) by omega]
  rw [hrep, writeUint16_fill pre (2 + r) off v h]
  have h2 := writeUint16_fill (pre ++ u16le v) r (off + 2) (v / 256 / 256)
    (by simp [u16le, h])
  rw [h2, u32le_eq_u16le]
  simp

theorem writeInt16_fill (pre : List Nat) (r off : Nat) (v : ℚ) (h : off = pre.length) :
    writeInt16 (pre ++ List.replicate (2 + r) 0) off v
      = (pre ++ i16le (ratTrunc v)) ++ List.replicate r 0 := by
  rw [writeInt16, writeUint16_fill pre r off _ h, i16le]

theorem ratTrunc_pcmScale (x : ℚ) : ratTrunc (pcmScale x) = specQuantize x := by
  rw [pcmScale, specQuantize, apply_ite ratTrunc]

theorem writeSamples_fill :
    ∀ (xs : List ℚ) (pre : List Nat) (off : Nat), off = pre.length →
      writeSamples (pre ++ List.replicate (xs.length * 2) 0) off xs
        = pre ++ wavPayload xs := by
  intro xs
  induction xs with
  | nil => intro pre off h; simp [writeSamples, wavPayload]
  | cons x xs ih =>
    intro pre off h
    rw [writeSamples]
    have hrep : List.replicate ((x :: xs).length * 2) (0:Nat)
        = List.replicate (2 + xs.length * 2) 0 := by
      rw [show (x :: xs).length * 2 = 2 + xs.length * 2 by simp; omega]
    rw [hrep, writeInt16_fill pre (xs.length * 2) off (pcmScale x) h,
      ratTrunc_pcmScale]
    have := ih (pre ++ i16le (specQuantize x)) (off + 2)
      (by simp [i16le, u16le, h])
    rw [this]
    simp [wavPayload]

theorem writeStr_fillAt (s : String) (cs pre buf : List Nat) (r off len : Nat)
    (hcs : s.data.map Char.toNat = cs) (hlt : ∀ c ∈ cs, c % 256 = c)
    (hbuf : buf = pre ++ List.replicate len 0) (hlen : len = cs.length + r)
    (hoff : off = pre.length) :
    writeStr buf off s = (pre ++ cs) ++ List.replicate r 0 := by
  subst hbuf
  subst hlen
  subst hoff
  rw [writeStr, hcs]
  exact writeBytes_fill cs pre r _ rfl hlt

theorem writeUint16_fillAt (pre buf : List Nat) (r off len v : Nat)
    (hbuf : buf = pre ++ List.replicate len 0) (hlen : len = 2 + r)
    (hoff : off = pre.length) :
    writeUint16 buf off v = (pre ++ u16le v) ++ List.replicate r 0 := by
  subst hbuf
  subst hlen
  exact writeUint16_fill pre r off v hoff

theorem writeUint32_fillAt (pre buf : List Nat) (r off len v : Nat)
    (hbuf : buf = pre ++ List.replicate len 0) (hlen : len = 4 + r)
    (hoff : off = pre.length) :
    writeUint32 buf off v = (pre ++ u32le v) ++ List.replicate r 0 := by
  subst hbuf
  subst hlen
  exact writeUint32_fill pre r off v hoff

theorem writeSamples_fillAt (xs : List ℚ) (pre buf : List Nat) (off len : Nat)
    (hbuf : buf = pre ++ List.replicate len 0) (hlen : len = xs.length * 2)
    (hoff : off = pre.length) :
    writeSamples buf off xs = pre ++ wavPayload xs := by
  subst hbuf
  subst hlen
  exact writeSamples_fill xs pre off hoff

theorem createWavBlob_eq (xs : List ℚ) (rate : Nat) :
    createWavBlob xs rate = wavHeader xs.length rate ++ wavPayload xs := by
  simp only [createWavBlob]
  rw [writeStr_fillAt "RIFF" [82,73,70,70] [] (List.replicate (44 + xs.length * 2) 0)
    (40 + xs.length * 2) 0 (44 + xs.length * 2) (by decide) (by decide)
    (List.nil_append _).symm (by simp only [List.length_cons, List.length_nil]; omega) rfl]
  rw [List.nil_append]
  rw [writeUint32_fillAt [82,73,70,70]
    ([82,73,70,70] ++ List.replicate (40 + xs.length * 2) 0)
    (36 + xs.length * 2) 4 (40 + xs.length * 2) (36 + xs.length * 2) rfl (by omega)
    (by simp)]
  rw [writeStr_fillAt "WAVE" [87,65,86,69]
    ([82,73,70,70] ++ u32le (36 + xs.length * 2))
    (([82,73,70,70] ++ u32le (36 + xs.length * 2))
      ++ List.replicate (36 + xs.length * 2) 0)
    (32 + xs.length * 2) 8 (36 + xs.length * 2) (by decide) (by decide) rfl
    (by simp only [List.length_cons, List.length_nil]; omega) (by simp [u32le])]
  rw [writeStr_fillAt "fmt " [102,109,116,32]
    (([82,73,70,70] ++ u32le (36 + xs.length * 2)) ++ [87,65,86,69])
    ((([82,73,70,70] ++ u32le (36 + xs.length * 2)) ++ [87,65,86,69])
      ++ List.replicate (32 + xs.length * 2) 0)
    (28 + xs.length * 2) 12 (32 + xs.length * 2) (by decide) (by decide) rfl
    (by simp only [List.length_cons, List.length_nil]; omega) (by simp [u32le])]
  rw [writeUint32_fillAt
    ((([82,73,70,70] ++ u32le (36 + xs.length * 2)) ++ [87,65,86,69])
      ++ [102,109,116,32])
    (((([82,73,70,70] ++ u32le (36 + xs.length * 2)) ++ [87,65,86,69])
      ++ [102,109,116,32]) ++ List.replicate (28 + xs.length * 2) 0)
    (24 + xs.length * 2) 16 (28 + xs.length * 2) 16 rfl (by omega)
    (by simp [u32le])]
  rw [writeUint16_fillAt
    (((([82,73,70,70] ++ u32le (36 + xs.length * 2)) ++ [87,65,86,69])
      ++ [102,109,116,32]) ++ u32le 16)
    ((((([82,73,70,70] ++ u32le (36 + xs.length * 2)) ++ [87,65,86,69])
      ++ [102,109,116,32]) ++ u32le 16) ++ List.replicate (24 + xs.length * 2) 0)
    (22 + xs.length * 2) 20 (24 + xs.length * 2) 1 rfl (by omega)
    (by simp [u32le])]
  rw [writeUint16_fillAt
    ((((([82,73,70,70] ++ u32le (36 + xs.length * 2)) ++ [87,65,86,69])
      ++ [102,109,116,32]) ++ u32le 16) ++ u16le 1)
    (((((([82,73,70,70] ++ u32le (36 + xs.length * 2)) ++ [87,65,86,69])
      ++ [102,109,116,32]) ++ u32le 16) ++ u16le 1)
      ++ List.replicate (22 + xs.length * 2) 0)
    (20 + xs.length * 2) 22 (22 + xs.length * 2) 1 rfl (by omega)
    (by simp [u32le, u16le])]
  rw [writeUint32_fillAt
    (((((([82,73,70,70] ++ u32le (36 + xs.length * 2)) ++ [87,65,86,69])
      ++ [102,109,116,32]) ++ u32le 16) ++ u16le 1) ++ u16le 1)
    ((((((([82,73,70,70] ++ u32le (36 + xs.length * 2)) ++ [87,65,86,69])
      ++ [102,109,116,32]) ++ u32le 16) ++ u16le 1) ++ u16le 1)
      ++ List.replicate (20 + xs.length * 2) 0)
    (16 + xs.length * 2) 24 (20 + xs.length * 2) rate rfl (by omega)
    (by simp [u32le, u16le])]
  rw [writeUint32_fillAt
    ((((((([82,73,70,70] ++ u32le (36 + xs.length * 2)) ++ [87,65,86,69])
      ++ [102,109,116,32]) ++ u32le 16) ++ u16le 1) ++ u16le 1) ++ u32le rate)
    (((((((([82,73,70,70] ++ u32le (36 + xs.length * 2)) ++ [87,65,86,69])
      ++ [102,109,116,32]) ++ u32le 16) ++ u16le 1) ++ u16le 1) ++ u32le rate)
      ++ List.replicate (16 + xs.length * 2) 0)
    (12 + xs.length * 2) 28 (16 + xs.length * 2) (rate * 2) rfl (by omega)
    (by simp [u32le, u16le])]
  rw [writeUint16_fillAt
    (((((((([82,73,70,70] ++ u32le (36 + xs.length * 2)) ++ [87,65,86,69])
      ++ [102,109,116,32]) ++ u32le 16) ++ u16le 1) ++ u16le 1) ++ u32le rate)
      ++ u32le (rate * 2))
    ((((((((([82,73,70,70] ++ u32le (36 + xs.length * 2)) ++ [87,65,86,69])
      ++ [102,109,116,32]) ++ u32le 16) ++ u16le 1) ++ u16le 1) ++ u32le rate)
      ++ u32le (rate * 2)) ++ List.replicate (12 + xs.length * 2) 0)
    (10 + xs.length * 2) 32 (12 + xs.length * 2) 2 rfl (by omega)
    (by simp [u32le, u16le])]
  rw [writeUint16_fillAt
    ((((((((([82,73,70,70] ++ u32le (36 + xs.length * 2)) ++ [87,65,86,69])
      ++ [102,109,116,32]) ++ u32le 16) ++ u16le 1) ++ u16le 1) ++ u32le rate)
      ++ u32le (rate * 2)) ++ u16le 2)
    (((((((((([82,73,70,70] ++ u32le (36 + xs.length * 2)) ++ [87,65,86,69])
      ++ [102,109,116,32]) ++ u32le 16) ++ u16le 1) ++ u16le 1) ++ u32le rate)
      ++ u32le (rate * 2)) ++ u16le 2) ++ List.replicate (10 + xs.length * 2) 0)
    (8 + xs.length * 2) 34 (10 + xs.length * 2) 16 rfl (by omega)
    (by simp [u32le, u16le])]
  rw [writeStr_fillAt "data" [100,97,116,97]
    (((((((((([82,73,70,70] ++ u32le (36 + xs.length * 2)) ++ [87,65,86,69])
      ++ [102,109,116,32]) ++ u32le 16) ++ u16le 1) ++ u16le 1) ++ u32le rate)
      ++ u32le (rate * 2)) ++ u16le 2) ++ u16le 16)
    ((((((((((([82,73,70,70] ++ u32le (36 + xs.length * 2)) ++ [87,65,86,69])
      ++ [102,109,116,32]) ++ u32le 16) ++ u16le 1) ++ u16le 1) ++ u32le rate)
      ++ u32le (rate * 2)) ++ u16le 2) ++ u16le 16)
      ++ List.replicate (8 + xs.length * 2) 0)
    (4 + xs.length * 2) 36 (8 + xs.length * 2) (by decide) (by decide) rfl
    (by simp only [List.length_cons, List.length_nil]; omega)
    (by simp [u32le, u16le])]
  rw [writeUint32_fillAt
    ((((((((((([82,73,70,70] ++ u32le (36 + xs.length * 2)) ++ [87,65,86,69])
      ++ [102,109,116,32]) ++ u32le 16) ++ u16le 1) ++ u16le 1) ++ u32le rate)
      ++ u32le (rate * 2)) ++ u16le 2) ++ u16le 16) ++ [100,97,116,97])
    (((((((((((([82,73,70,70] ++ u32le (36 + xs.length * 2)) ++ [87,65,86,69])
      ++ [102,109,116,32]) ++ u32le 16) ++ u16le 1) ++ u16le 1) ++ u32le rate)
      ++ u32le (rate * 2)) ++ u16le 2) ++ u16le 16) ++ [100,97,116,97])
      ++ List.replicate (4 + xs.length * 2) 0)
    (xs.length * 2) 40 (4 + xs.length * 2) (xs.length * 2) rfl (by omega)
    (by simp [u32le, u16le])]
  rw [writeSamples_fillAt xs
    (((((((((((([82,73,70,70] ++ u32le (36 + xs.length * 2)) ++ [87,65,86,69])
      ++ [102,109,116,32]) ++ u32le 16) ++ u16le 1) ++ u16le 1) ++ u32le rate)
      ++ u32le (rate * 2)) ++ u16le 2) ++ u16le 16) ++ [100,97,116,97])
      ++ u32le (xs.length * 2))
    ((((((((((((([82,73,70,70] ++ u32le (36 + xs.length * 2)) ++ [87,65,86,69])
      ++ [102,109,116,32]) ++ u32le 16) ++ u16le 1) ++ u16le 1) ++ u32le rate)
      ++ u32le (rate * 2)) ++ u16le 2) ++ u16le 16) ++ [100,97,116,97])
      ++ u32le (xs.length * 2)) ++ List.replicate (xs.length * 2) 0)
    44 (xs.length * 2) rfl rfl (by simp [u32le, u16le])]
  rw [wavHeader]

theorem wavHeader_length (n rate : Nat) : (wavHeader n rate).length = 44 := by
  simp [wavHeader, u16le, u32le]

theorem wavPayload_cons (x : ℚ) (xs : List ℚ) :
    wavPayload (x :: xs) = i16le (specQuantize x) ++ wavPayload xs := by
  simp [wavPayload]

theorem i16le_length (v : Int) : (i16le v).length = 2 := by
  simp [i16le, u16le]

theorem wavPayload_length (xs : List ℚ) : (wavPayload xs).length = 2 * xs.length := by
  induction xs with
  | nil => simp [wavPayload]
  | cons x xs ih =>
    rw [wavPayload_cons, List.length_append, i16le_length, ih]
    simp
    omega

theorem createWavBlob_length (xs : List ℚ) (rate : Nat) :
    (createWavBlob xs rate).length = 44 + 2 * xs.length := by
  rw [createWavBlob_eq, List.length_append, wavHeader_length, wavPayload_length]

theorem wavPayload_word (xs : List ℚ) : ∀ (i : Nat) (h : i < xs.length),
    ((wavPayload xs).drop (2 * i)).take 2 = i16le (specQuantize (xs.get ⟨i, h⟩)) := by
  induction xs with
  | nil => intro i h; simp at h
  | cons x xs ih =>
    intro i h
    cases i with
    | zero =>
      rw [wavPayload_cons]
      simp only [Nat.mul_zero, List.drop_zero]
      rw [show (2:Nat) = (i16le (specQuantize x)).length from (i16le_length _).symm,
        List.take_left]
      rfl
    | succ j =>
      have hj : j < xs.length := by
        simp only [List.length_cons] at h
        omega
      rw [wavPayload_cons,
        show 2 * (j + 1) = (i16le (specQuantize x)).length + 2 * j from by
          rw [i16le_length]; omega,
        List.drop_append]
      rw [show (x :: xs).get ⟨j + 1, h⟩ = xs.get ⟨j, hj⟩ from rfl]
      exact ih j hj

theorem createWavBlob_word (xs : List ℚ) (rate : Nat) (i : Nat) (h : i < xs.length) :
    ((createWavBlob xs rate).drop (44 + 2 * i)).take 2
      = i16le (specQuantize (xs.get ⟨i, h⟩)) := by
  rw [createWavBlob_eq,
    show 44 + 2 * i = (wavHeader xs.length rate).length + 2 * i from by
      rw [wavHeader_length],
    List.drop_append]
  exact wavPayload_word xs i h

theorem specQuantize_range (x : ℚ) : -32768 ≤ specQuantize x ∧ specQuantize x < 32768 := by
  simp only [specQuantize]
  set c := max (-1) (min 1 x) with hc
  have hc1 : (-1 : ℚ) ≤ c := le_max_left _ _
  have hc2 : c ≤ 1 := max_le (by norm_num) (min_le_left _ _)
  split
  · next hneg =>
    rw [ratTrunc, if_pos (by nlinarith)]
    constructor
    · have h1 : (-32768 : ℚ) ≤ (⌈c * 32768⌉ : ℚ) :=
        le_trans (by nlinarith) (Int.le_ceil _)
      exact_mod_cast h1
    · have h2 : ⌈c * 32768⌉ ≤ 0 := Int.ceil_le.mpr (by push_cast; linarith)
      omega
  · next hpos =>
    push_neg at hpos
    rw [ratTrunc, if_neg (not_lt.mpr (mul_nonneg hpos (by norm_num)))]
    constructor
    · have h1 : (0:Int) ≤ ⌊c * 32767⌋ := Int.floor_nonneg.mpr (mul_nonneg hpos (by norm_num))
      omega
    · have h2 : ((⌊c * 32767⌋ : Int) : ℚ) ≤ 32767 :=
        le_trans (Int.floor_le _) (by nlinarith)
      have h3 : (⌊c * 32767⌋ : Int) ≤ 32767 := by exact_mod_cast h2
      omega

theorem decodeInt16_i16le (v : Int) (h1 : -32768 ≤ v) (h2 : v < 32768) :
    decodeInt16 ((v % 65536).toNat % 256) ((v % 65536).toNat / 256 % 256) = v := by
  rw [decodeInt16]
  split <;> omega

theorem dequantize_error (x : ℚ) :
    |dequantize (specQuantize x) - max (-1) (min 1 x)| < 1 / 32767 := by
  simp only [specQuantize]
  set c := max (-1) (min 1 x) with hc
  have hc1 : (-1 : ℚ) ≤ c := le_max_left _ _
  have hc2 : c ≤ 1 := max_le (by norm_num) (min_le_left _ _)
  split
  · next hneg =>
    rw [ratTrunc, if_pos (by nlinarith)]
    have hv1 : (c * 32768 : ℚ) ≤ (⌈c * 32768⌉ : ℚ) := Int.le_ceil _
    have hv2 : ((⌈c * 32768⌉ : Int) : ℚ) < c * 32768 + 1 := Int.ceil_lt_add_one _
    by_cases hv0 : ⌈c * 32768⌉ < 0
    · rw [dequantize, if_pos hv0]
      have hA : c ≤ ((⌈c * 32768⌉ : Int) : ℚ) / 32768 := by
        rw [le_div_iff₀ (by norm_num : (0:ℚ) < 32768)]
        exact hv1
      have hB : ((⌈c * 32768⌉ : Int) : ℚ) / 32768 < c + 1 / 32768 := by
        rw [div_lt_iff₀ (by norm_num : (0:ℚ) < 32768)]
        ring_nf
        ring_nf at hv2
        linarith
      rw [abs_lt]
      constructor
      · have : (0:ℚ) < 1 / 32767 := by norm_num
        linarith
      · have : (1:ℚ) / 32768 < 1 / 32767 := by norm_num
        linarith
    · have hvle : ⌈c * 32768⌉ ≤ 0 := Int.ceil_le.mpr (by push_cast; linarith)
      have hveq : ⌈c * 32768⌉ = 0 := le_antisymm hvle (not_lt.mp hv0)
      rw [dequantize, if_neg hv0, hveq]
      have hcgt : -(1 / 32768 : ℚ) < c := by
        rw [hveq] at hv2
        push_cast at hv2
        linarith
      simp only [Int.cast_zero, zero_div, zero_sub, abs_neg]
      rw [abs_of_neg hneg]
      have : (1:ℚ) / 32768 < 1 / 32767 := by norm_num
      linarith
  · next hpos =>
    push_neg at hpos
    rw [ratTrunc, if_neg (not_lt.mpr (mul_nonneg hpos (by norm_num)))]
    have hv1 : ((⌊c * 32767⌋ : Int) : ℚ) ≤ c * 32767 := Int.floor_le _
    have hv2 : (c * 32767 : ℚ) < ⌊c * 32767⌋ + 1 := Int.lt_floor_add_one _
    have hv0 : ¬ ⌊c * 32767⌋ < 0 :=
      not_lt.mpr (Int.floor_nonneg.mpr (mul_nonneg hpos (by norm_num)))
    rw [dequantize, if_neg hv0]
    have hA : ((⌊c * 32767⌋ : Int) : ℚ) / 32767 ≤ c := by
      rw [div_le_iff₀ (by norm_num : (0:ℚ) < 32767)]
      exact hv1
    have hB : c < ((⌊c * 32767⌋ : Int) : ℚ) / 32767 + 1 / 32767 := by
      rw [← add_div, lt_div_iff₀ (by norm_num : (0:ℚ) < 32767)]
      linarith
    rw [abs_lt]
    constructor
    · linarith
    · have : (0:ℚ) < 1 / 32767 := by norm_num
      linarith

theorem snapshotLast_zero (bufs : List (List ℚ)) (rate : Nat) :
    snapshotLast bufs rate 0 = some [] := by
  simp only [snapshotLast]
  have havail : (0:ℚ) ≤ (totalSamples bufs : ℚ) / (rate : ℚ) := by positivity
  rw [min_eq_left havail, zero_mul, Int.floor_zero,
    trimAudioBuffer_eq bufs 0 le_rfl, Int.toNat_zero, Nat.sub_zero,
    totalSamples_eq_length_flatten, List.drop_length]

theorem specQuantize_half : specQuantize (1/2 : ℚ) = 16383 := by
  simp only [specQuantize, ratTrunc]
  norm_num

theorem specQuantize_tiny : specQuantize (2/65535 : ℚ) = 0 := by
  simp only [specQuantize, ratTrunc]
  norm_num

theorem i16le_16383 : i16le 16383 = [255, 63] := by decide

theorem c1Buffers_eq :
    c1Buffers = [List.replicate 16000 (1/2 : ℚ), List.replicate 8000 (1/2 : ℚ)] := by
  rw [c1Buffers, c1Chunks, runAppends]
  simp only [List.foldl_cons, List.foldl_nil]
  rw [show appendChunk (16000 * 2) [] (List.replicate 16000 (1/2 : ℚ))
      = [List.replicate 16000 (1/2 : ℚ)] from by
    rw [appendChunk, List.nil_append]
    exact evictOld_eq_self _ _ (by norm_num [totalSamples])]
  rw [show appendChunk (16000 * 2) [List.replicate 16000 (1/2 : ℚ)]
        (List.replicate 16000 (1/2 : ℚ))
      = [List.replicate 16000 (1/2 : ℚ), List.replicate 16000 (1/2 : ℚ)] from by
    rw [appendChunk]
    simp only [List.cons_append, List.nil_append]
    exact evictOld_eq_self _ _ (by norm_num [totalSamples])]
  rw [appendChunk]
  simp only [List.cons_append, List.nil_append]
  rw [evictOld]
  have hcond : totalSamples [List.replicate 16000 (1/2 : ℚ), List.replicate 16000 (1/2 : ℚ),
        List.replicate 8000 (1/2 : ℚ)] > 16000 * 2 ∧
      ([List.replicate 16000 (1/2 : ℚ), List.replicate 16000 (1/2 : ℚ),
        List.replicate 8000 (1/2 : ℚ)] : List (List ℚ)).length > 1 := by
    constructor
    · norm_num [totalSamples]
    · norm_num
  rw [if_pos hcond]
  exact evictOld_eq_self _ _ (by norm_num [totalSamples])

theorem c1Buffers_total : totalSamples c1Buffers = 24000 := by
  rw [c1Buffers_eq]
  norm_num [totalSamples]

theorem c1Buffers_flatten : c1Buffers.flatten = List.replicate 24000 (1/2 : ℚ) := by
  rw [c1Buffers_eq]
  simp only [List.flatten_cons, List.flatten_nil, List.append_nil]
  rw [show (24000 : Nat) = 16000 + 8000 from by norm_num, List.replicate_add]

/-! ## Claim theorems -/

/-- C1, counterexample.  The claim states that after appending chunks of
16000, 16000 and 8000 samples with ceiling 32000 the retained count is
32000, and that a 0.5 sample encodes as round(0.5 × 32767) = 16384.  Both
are false on the code: eviction is chunk-granular, so the whole first
chunk is dropped leaving 24000 samples, and `setInt16` truncates
0.5 × 32767 = 16383.5 to 16383. -/
theorem c1_counterexample :
    totalSamples c1Buffers = 24000
  ∧ totalSamples c1Buffers ≠ 32000
  ∧ specQuantize (1/2 : ℚ) = 16383
  ∧ specQuantize (1/2 : ℚ) ≠ 16384 := by
  refine ⟨c1Buffers_total, ?_, specQuantize_half, ?_⟩
  · rw [c1Buffers_total]
    norm_num
  · rw [specQuantize_half]
    norm_num

/-- C1 (amended): in the concrete scenario the retained count after the
third append is 24000 (the first chunk is evicted whole); a snapshot of
the last 1.0 second is 16000 samples all equal to 0.5; encoding that
snapshot yields 44 + 16000 × 2 = 32044 bytes in which every 16-bit
little-endian payload word equals trunc(0.5 × 32767) = 16383, i.e. bytes
255, 63. -/
theorem c1_amended :
    totalSamples c1Buffers = 24000
  ∧ snapshotLast c1Buffers 16000 1 = some (List.replicate 16000 (1/2 : ℚ))
  ∧ (createWavBlob (List.replicate 16000 (1/2 : ℚ)) 16000).length = 32044
  ∧ ∀ i : Nat, i < 16000 →
      ((createWavBlob (List.replicate 16000 (1/2 : ℚ)) 16000).drop (44 + 2 * i)).take 2
        = [255, 63] := by
  refine ⟨c1Buffers_total, ?_, ?_, ?_⟩
  · rw [snapshotLast_small c1Buffers 16000 1 (by norm_num) (by norm_num)
      (by rw [c1Buffers_total]; norm_num)]
    rw [c1Buffers_flatten, c1Buffers_total, one_mul,
      show ((16000 : Nat) : ℚ) = ((16000 : Nat) : ℚ) from rfl, Int.floor_natCast,
      Int.toNat_natCast, List.drop_replicate]
  · rw [createWavBlob_length]
    norm_num
  · intro i hi
    have hlen : i < (List.replicate 16000 (1/2 : ℚ)).length := by
      rw [List.length_replicate]
      exact hi
    rw [createWavBlob_word (List.replicate 16000 (1/2 : ℚ)) 16000 i hlen,
      List.get_replicate, specQuantize_half, i16le_16383]

/-- C1 (amended), witness at i = 7. -/
theorem c1_amended_witness :
    ((createWavBlob (List.replicate 16000 (1/2 : ℚ)) 16000).drop (44 + 2 * 7)).take 2
      = [255, 63] :=
  c1_amended.2.2.2 7 (by norm_num)

/-- C2, counterexample.  A single appended chunk of 5 samples with ceiling
`sample_rate × retention_seconds = 1 × 2 = 2` is kept whole: the retained
count is 5, which exceeds the ceiling and differs from min(2, 5). -/
theorem c2_counterexample :
    totalSamples (runAppends 2 [[(0:ℚ), 0, 0, 0, 0]]) = 5
  ∧ ¬ (totalSamples (runAppends 2 [[(0:ℚ), 0, 0, 0, 0]]) ≤ 2
        ∧ totalSamples (runAppends 2 [[(0:ℚ), 0, 0, 0, 0]]) = min 2 5) := by
  decide

/-- C2 (amended): for every sequence of appends in which no single chunk
exceeds the ceiling, after every call the retained count is at most the
ceiling and at most the total ever appended, with equality to the total
whenever the total is at most the ceiling.  (Without the per-chunk bound
the ceiling can be exceeded, and chunk-granular eviction can leave fewer
than min(ceiling, total) samples.) -/
theorem c2_ceiling_amended (m : Nat) (chunks : List (List ℚ))
    (h : ∀ c ∈ chunks, c.length ≤ m) (i : Nat) :
    totalSamples (runAppends m (chunks.take i)) ≤ m
  ∧ totalSamples (runAppends m (chunks.take i)) ≤ totalSamples (chunks.take i)
  ∧ (totalSamples (chunks.take i) ≤ m →
      totalSamples (runAppends m (chunks.take i)) = totalSamples (chunks.take i)) := by
  refine ⟨?_, ?_, ?_⟩
  · exact runAppends_total_le m _ (fun c hc => h c (List.take_subset i chunks hc))
  · exact runAppends_total_le_appended m _
  · intro hle
    rw [runAppends_no_evict m _ hle]

/-- C2 (amended), witness: chunks [1], [2, 3] with ceiling 2, after the
second call. -/
theorem c2_ceiling_amended_witness :
    totalSamples (runAppends 2 (([[(1:ℚ)], [2, 3]] : List (List ℚ)).take 2)) ≤ 2
  ∧ totalSamples (runAppends 2 (([[(1:ℚ)], [2, 3]] : List (List ℚ)).take 2))
      ≤ totalSamples (([[(1:ℚ)], [2, 3]] : List (List ℚ)).take 2)
  ∧ (totalSamples (([[(1:ℚ)], [2, 3]] : List (List ℚ)).take 2) ≤ 2 →
      totalSamples (runAppends 2 (([[(1:ℚ)], [2, 3]] : List (List ℚ)).take 2))
        = totalSamples (([[(1:ℚ)], [2, 3]] : List (List ℚ)).take 2)) :=
  c2_ceiling_amended 2 [[(1:ℚ)], [2, 3]] (by decide) 2

/-- C10: the eviction loop never removes the last remaining chunk — after
any append the chunk list is non-empty, and a chunk longer than the
ceiling is kept in full, so the retained count then strictly exceeds the
ceiling. -/
theorem c10_last_chunk_kept (m : Nat) (bufs : List (List ℚ)) (c : List ℚ) :
    appendChunk m bufs c ≠ []
  ∧ (m < c.length →
      appendChunk m bufs c = [c] ∧ m < totalSamples (appendChunk m bufs c)) := by
  refine ⟨appendChunk_ne_nil m bufs c, ?_⟩
  intro hlen
  have he : appendChunk m bufs c = [c] := evictOld_big m c hlen bufs
  refine ⟨he, ?_⟩
  rw [he, totalSamples_cons, totalSamples_nil]
  omega

/-- C10, witness: a 3-sample chunk appended with ceiling 2 evicts the rest
and is kept whole. -/
theorem c10_witness :
    appendChunk 2 [[(0:ℚ)]] [0, 0, 0] = [[(0:ℚ), 0, 0]]
  ∧ 2 < totalSamples (appendChunk 2 [[(0:ℚ)]] [0, 0, 0]) :=
  (c10_last_chunk_kept 2 [[(0:ℚ)]] [0, 0, 0]).2 (by decide)

/-- C3: every emitted 16-bit payload word is the little-endian encoding of
the value obtained by clamping the sample to [-1, 1], multiplying a
negative clamped value by 32768 and a non-negative one by 32767, and
truncating toward zero (`specQuantize`, stated from the spec text). -/
theorem c3_quantization_rule (xs : List ℚ) (rate : Nat) (i : Nat) (h : i < xs.length) :
    ((createWavBlob xs rate).drop (44 + 2 * i)).take 2
      = i16le (specQuantize (xs.get ⟨i, h⟩)) :=
  createWavBlob_word xs rate i h

/-- C3, witness: the out-of-range sample 3 is clamped to 1 and encoded as
32767 = bytes 255, 127. -/
theorem c3_witness :
    ((createWavBlob [(3:ℚ)] 8000).drop (44 + 2 * 0)).take 2 = [255, 127] := by
  rw [c3_quantization_rule [(3:ℚ)] 8000 0 (by norm_num)]
  rw [show ([(3:ℚ)]).get ⟨0, by norm_num⟩ = 3 from rfl]
  rw [show specQuantize (3:ℚ) = 32767 from by
    simp only [specQuantize, ratTrunc]
    norm_num]
  decide

/-- C4: for every sample sequence and positive sample rate the encoder
output is exactly the 44-byte header described field by field in the
claim (`wavHeader`, stated from the spec text) followed by the 16-bit
little-endian payload words. -/
theorem c4_header_layout (xs : List ℚ) (rate : Nat) (hrate : 0 < rate) :
    createWavBlob xs rate = wavHeader xs.length rate ++ wavPayload xs :=
  createWavBlob_eq xs rate

/-- C4, witness at rate 1 with one sample. -/
theorem c4_witness :
    0 < 1 ∧ createWavBlob [(1:ℚ)] 1 = wavHeader 1 1 ++ wavPayload [(1:ℚ)] :=
  ⟨by decide, c4_header_layout [(1:ℚ)] 1 (by decide)⟩

/-- C5: if the requested duration d is at least the retained duration,
`snapshotLast` returns exactly the retained samples; if d is smaller (and
non-negative), it returns exactly ⌊d × sample_rate⌋ of the most recent
samples, and ⌊d × sample_rate⌋ differs from round(d × sample_rate) by at
most 1. -/
theorem c5_saturating_export (bufs : List (List ℚ)) (rate : Nat) (d : ℚ)
    (hrate : 0 < rate) :
    ((totalSamples bufs : ℚ) / (rate : ℚ) ≤ d →
      snapshotLast bufs rate d = some bufs.flatten)
  ∧ (0 ≤ d → d * (rate : ℚ) ≤ (totalSamples bufs : ℚ) →
      snapshotLast bufs rate d
          = some (bufs.flatten.drop (totalSamples bufs - (⌊d * (rate : ℚ)⌋).toNat))
        ∧ (bufs.flatten.drop (totalSamples bufs - (⌊d * (rate : ℚ)⌋).toNat)).length
            = (⌊d * (rate : ℚ)⌋).toNat
        ∧ (⌊d * (rate : ℚ)⌋ - round (d * (rate : ℚ))).natAbs ≤ 1) := by
  constructor
  · intro hd
    exact snapshotLast_saturate bufs rate d hrate hd
  · intro hd0 hdle
    refine ⟨snapshotLast_small bufs rate d hrate hd0 hdle, ?_, floor_round_close _⟩
    have h1 : (⌊d * (rate : ℚ)⌋ : Int) ≤ (totalSamples bufs : Int) := by
      have := Int.floor_le_floor hdle
      rwa [Int.floor_natCast] at this
    rw [List.length_drop, ← totalSamples_eq_length_flatten]
    omega

/-- C5, witness: a 2-sample buffer at rate 1 with requested duration 5
saturates to everything retained. -/
theorem c5_witness : snapshotLast [[(1:ℚ), 2]] 1 5 = some ([[(1:ℚ), 2]].flatten) :=
  (c5_saturating_export [[(1:ℚ), 2]] 1 5 (by decide)).1 (by norm_num [totalSamples])

/-- C6: a snapshot whose duration covers everything retained returns all
retained samples in chronological oldest-first order (the flattening of
the chunk list), with nothing reordered or duplicated. -/
theorem c6_order_preservation (bufs : List (List ℚ)) (rate : Nat) (d : ℚ)
    (hrate : 0 < rate) (hd : (totalSamples bufs : ℚ) / (rate : ℚ) ≤ d) :
    snapshotLast bufs rate d = some bufs.flatten :=
  snapshotLast_saturate bufs rate d hrate hd

/-- C6, witness: two chunks come back concatenated in order. -/
theorem c6_witness : snapshotLast [[(1:ℚ)], [2, 3]] 1 10 = some [1, 2, 3] := by
  have := c6_order_preservation [[(1:ℚ)], [2, 3]] 1 10 (by decide)
    (by norm_num [totalSamples])
  simpa using this

/-- C7, counterexample.  The claim tolerates a round-trip error of at most
1/32768, but the positive quantization step is 1/32767: the sample
2/65535 quantizes to 0, and |0 - 2/65535| = 2/65535 > 1/32768. -/
theorem c7_counterexample :
    specQuantize (2/65535 : ℚ) = 0
  ∧ (1 : ℚ)/32768
      < |dequantize (specQuantize (2/65535 : ℚ)) - max (-1) (min 1 (2/65535 : ℚ))| := by
  refine ⟨specQuantize_tiny, ?_⟩
  rw [specQuantize_tiny]
  rw [show dequantize 0 = 0 from by rw [dequantize]; norm_num]
  rw [show max (-1 : ℚ) (min 1 (2/65535)) = 2/65535 from by
    rw [min_eq_right (by norm_num), max_eq_right (by norm_num)]]
  rw [zero_sub, abs_neg, abs_of_pos (by norm_num)]
  norm_num

/-- C7 (amended): the header of the encoder output matches the documented
fields exactly, each payload word is the little-endian image of the
quantized clamped sample and decodes back to it, and the inverse of the
documented quantization formula reconstructs the clamped sample to within
one quantization step, which is strictly less than 1/32767 (not 1/32768:
that bound can be exceeded for positive samples). -/
theorem c7_roundtrip_amended (xs : List ℚ) (rate : Nat) (i : Nat) (h : i < xs.length) :
    (createWavBlob xs rate).take 44 = wavHeader xs.length rate
  ∧ ((createWavBlob xs rate).drop (44 + 2 * i)).take 2
      = i16le (specQuantize (xs.get ⟨i, h⟩))
  ∧ decodeInt16 ((specQuantize (xs.get ⟨i, h⟩) % 65536).toNat % 256)
        ((specQuantize (xs.get ⟨i, h⟩) % 65536).toNat / 256 % 256)
      = specQuantize (xs.get ⟨i, h⟩)
  ∧ |dequantize (specQuantize (xs.get ⟨i, h⟩)) - max (-1) (min 1 (xs.get ⟨i, h⟩))|
      < 1/32767 := by
  refine ⟨?_, createWavBlob_word xs rate i h, ?_, dequantize_error _⟩
  · rw [createWavBlob_eq,
      show (44:Nat) = (wavHeader xs.length rate).length from (wavHeader_length _ _).symm,
      List.take_left]
  · exact decodeInt16_i16le _ (specQuantize_range _).1 (specQuantize_range _).2

/-- C7 (amended), witness at the sample 1. -/
theorem c7_witness :
    |dequantize (specQuantize (([(1:ℚ)]).get ⟨0, by norm_num⟩))
        - max (-1) (min 1 (([(1:ℚ)]).get ⟨0, by norm_num⟩))| < 1/32767 :=
  (c7_roundtrip_amended [(1:ℚ)] 4 0 (by norm_num)).2.2.2

/-- C8: encoding zero samples is legal and produces exactly the 44-byte
header, whose data-length field (bytes 40..43) is 0, with an empty data
section. -/
theorem c8_empty_encode (rate : Nat) :
    createWavBlob [] rate = wavHeader 0 rate
  ∧ (createWavBlob [] rate).length = 44
  ∧ (createWavBlob [] rate).drop 40 = u32le 0 := by
  have h := createWavBlob_eq [] rate
  simp only [List.length_nil, wavPayload, List.map_nil, List.flatten_nil,
    List.append_nil] at h
  refine ⟨h, ?_, ?_⟩
  · rw [h, wavHeader_length]
  · rw [h]
    rfl

/-- C9, counterexample.  The claim states that a non-positive sample rate
or export duration fails with an InvalidConfiguration error; the code has
no such validation: encoding at sample rate 0 succeeds and returns a
44-byte container, and a snapshot of duration 0 succeeds and returns an
empty sequence. -/
theorem c9_counterexample :
    (createWavBlob [] 0).length = 44
  ∧ snapshotLast [[(1:ℚ)]] 16000 0 = some [] := by
  constructor
  · rw [createWavBlob_length]
    norm_num
  · exact snapshotLast_zero [[(1:ℚ)]] 16000

/-- C9 (amended): the code performs no configuration validation.  Encoding
with any sample rate (including 0) succeeds and produces the 44-byte
header; a snapshot of duration 0 succeeds with an empty result; only a
negative export duration fails, and then with the modelled RangeError of
the negative-length `Float32Array` constructor (`none`), not with an
InvalidConfiguration error. -/
theorem c9_no_validation (bufs : List (List ℚ)) (rate : Nat) (d : ℚ) :
    (createWavBlob [] rate).length = 44
  ∧ snapshotLast bufs rate 0 = some []
  ∧ (0 < rate → d < 0 → snapshotLast bufs rate d = none) := by
  refine ⟨?_, snapshotLast_zero bufs rate, ?_⟩
  · rw [createWavBlob_length]
    norm_num
  · intro hrate hd
    simp only [snapshotLast]
    have havail : (0:ℚ) ≤ (totalSamples bufs : ℚ) / (rate : ℚ) := by positivity
    rw [min_eq_left (le_trans hd.le havail)]
    apply trimAudioBuffer_neg
    have hneg : d * (rate : ℚ) < 0 :=
      mul_neg_of_neg_of_pos hd (by exact_mod_cast hrate)
    exact lt_of_not_ge fun hge => absurd (Int.floor_nonneg.mp hge) (not_le.mpr hneg)

/-- C9 (amended), witness: negative duration at a positive rate fails with
the modelled RangeError. -/
theorem c9_witness : snapshotLast [[(5:ℚ)]] 16000 (-1) = none :=
  (c9_no_validation [[(5:ℚ)]] 16000 (-1)).2.2 (by norm_num) (by norm_num)

end Listener
